import Mathlib

/-!
# TON Connect sign-data reference implementation: a shallow embedding

This file embeds the TypeScript reference implementation of the TON Connect
sign-data protocol (`src/sign.ts`, `src/verify.ts`, `src/types.ts`) into Lean
and proves the specification's claims about it.

Bytes are modelled as `Nat` values (< 256 for genuine byte data); byte strings
as `List Nat`.  The facade functions `signData` / `verifySignData` are
translated from the source files.  External collaborators that are not part of
the repository's `src/` tree (the `utils.ts` hash constructors and DNS-name
encoder, the `@ton/core` address parser and Cell codec, the `tweetnacl`
Ed25519 primitive, Node's `Buffer` base64 boundary, and the SHA-256 primitive)
are modelled from the specification, as marked on each definition.
Fallible TypeScript code (functions that `throw`) is modelled with
`Except String`.
-/

/-- UTF-8 encoding of a single character (RFC 3629), emitting byte values.
The `% 0x40`-style guards are identities on valid code points and make the
`< 256` byte bound purely arithmetic. -/
def utf8Char (c : Char) : List Nat :=
  let n := c.toNat
  if n < 0x80 then [n]
  else if n < 0x800 then [0xC0 + n / 0x40 % 0x20, 0x80 + n % 0x40]
  else if n < 0x10000 then
    [0xE0 + n / 0x1000 % 0x10, 0x80 + n / 0x40 % 0x40, 0x80 + n % 0x40]
  else
    [0xF0 + n / 0x40000 % 0x8, 0x80 + n / 0x1000 % 0x40,
     0x80 + n / 0x40 % 0x40, 0x80 + n % 0x40]

/-- UTF-8 encoding of a string, as Node's `Buffer.from(s, 'utf8')` produces. -/
def utf8 (s : String) : List Nat :=
  s.data.foldr (fun c acc => utf8Char c ++ acc) []

/-- Big-endian 4-byte encoding of an unsigned 32-bit integer,
as `Buffer.writeUInt32BE`. -/
def u32be (n : Nat) : List Nat :=
  [n / 0x1000000 % 256, n / 0x10000 % 256, n / 0x100 % 256, n % 256]

/-- Big-endian 8-byte encoding of an unsigned 64-bit integer,
as `Buffer.writeBigUInt64BE`. -/
def u64be (n : Nat) : List Nat :=
  [n / 0x100000000000000 % 256, n / 0x1000000000000 % 256,
   n / 0x10000000000 % 256, n / 0x100000000 % 256,
   n / 0x1000000 % 256, n / 0x10000 % 256, n / 0x100 % 256, n % 256]

/-- Big-endian 4-byte two's-complement encoding of a signed 32-bit integer,
as `Buffer.writeInt32BE`. -/
def i32be (i : Int) : List Nat :=
  u32be (Int.toNat (i % 4294967296))

/-- Value of a hexadecimal digit character, case-insensitive. -/
def hexVal (c : Char) : Option Nat :=
  let n := c.toNat
  if 48 ≤ n ∧ n ≤ 57 then some (n - 48)
  else if 97 ≤ n ∧ n ≤ 102 then some (n - 87)
  else if 65 ≤ n ∧ n ≤ 70 then some (n - 55)
  else none

/-- Decode a hexadecimal character sequence into bytes, two digits per byte;
fails on odd length or a non-hex character. -/
def hexDecode : List Char → Option (List Nat)
  | [] => some []
  | [_] => none
  | c1 :: c2 :: rest =>
    match hexVal c1, hexVal c2, hexDecode rest with
    | some h, some l, some bs => some ((h * 16 + l) :: bs)
    | _, _, _ => none

/-- Character of a base64 sextet value (standard, non-URL-safe alphabet). -/
def b64Char (v : Nat) : Char :=
  if v < 26 then Char.ofNat (65 + v)
  else if v < 52 then Char.ofNat (97 + (v - 26))
  else if v < 62 then Char.ofNat (48 + (v - 52))
  else if v = 62 then '+'
  else '/'

/-- Sextet value of a base64 alphabet character; `none` for anything else
(including padding). -/
def b64CharVal (c : Char) : Option Nat :=
  let n := c.toNat
  if 65 ≤ n ∧ n ≤ 90 then some (n - 65)
  else if 97 ≤ n ∧ n ≤ 122 then some (n - 71)
  else if 48 ≤ n ∧ n ≤ 57 then some (n + 4)
  else if n = 43 then some 62
  else if n = 47 then some 63
  else none

/-- Split a byte sequence into base64 sextet values, three bytes giving four
sextets, with the standard short-tail handling. -/
def b64Sextets : List Nat → List Nat
  | a :: b :: c :: t =>
    a / 4 :: (a % 4 * 16 + b / 16) :: (b % 16 * 4 + c / 64) :: c % 64 ::
      b64Sextets t
  | [a, b] => [a / 4, a % 4 * 16 + b / 16, b % 16 * 4]
  | [a] => [a / 4, a % 4 * 16]
  | [] => []

/-- Padding characters terminating a base64 encoding, by input length. -/
def b64Pad (l : List Nat) : List Char :=
  if l.length % 3 = 1 then ['=', '=']
  else if l.length % 3 = 2 then ['=']
  else []

/-- Base64-encode a byte sequence (standard alphabet with padding), as Node's
`Buffer.toString('base64')` produces. -/
def encodeBase64 (l : List Nat) : String :=
  String.mk ((b64Sextets l).map b64Char ++ b64Pad l)

/-- Reassemble bytes from base64 sextet values, four sextets giving three
bytes; a lenient tail (Node drops a lone trailing sextet). -/
def b64Group : List Nat → List Nat
  | s0 :: s1 :: s2 :: s3 :: t =>
    (s0 * 4 + s1 / 16) :: (s1 % 16 * 16 + s2 / 4) :: (s2 % 4 * 64 + s3) ::
      b64Group t
  | [s0, s1, s2] => [s0 * 4 + s1 / 16, s1 % 16 * 16 + s2 / 4]
  | [s0, s1] => [s0 * 4 + s1 / 16]
  | [_] => []
  | [] => []

/-- Modelled from the spec: Node's lenient `Buffer.from(s, 'base64')`
boundary decoder used for the carried signature — it never fails, ignoring
characters outside the base64 alphabet. -/
def decodeBase64Node (s : String) : List Nat :=
  b64Group (s.data.filterMap b64CharVal)

/-- Modelled from the spec: the strict base64 decoder of the payload
boundary ("base64 (not url safe) encoded bytes array"), failing on malformed
input: data characters must be from the standard alphabet, followed only by
at most two `=` padding characters, with four-character alignment. -/
def decodeBase64Strict (s : String) : Option (List Nat) :=
  let cs := s.data
  let core := cs.takeWhile (fun c => c ≠ '=')
  let pads := cs.drop core.length
  if core.all (fun c => (b64CharVal c).isSome) ∧ pads.all (fun c => c = '=') ∧
      pads.length ≤ 2 ∧ cs.length % 4 = 0 ∧ core.length % 4 ≠ 1 then
    some (b64Group (core.filterMap b64CharVal))
  else none

/-- Base-36 digit character of a punycode digit value (lowercase output). -/
def punyDigitChar (d : Nat) : Char :=
  if d < 26 then Char.ofNat (97 + d) else Char.ofNat (22 + d)

/-- Threshold function of the punycode variable-length integer encoding
(RFC 3492 section 6.3). -/
def punyThreshold (k bias : Nat) : Nat :=
  if k ≤ bias + 1 then 1 else if bias + 26 ≤ k then 26 else k - bias

/-- Emit one punycode variable-length integer (RFC 3492 section 6.3); `fuel`
strictly exceeds the number of emitted digits. -/
def punyVarint (fuel q k bias : Nat) : List Char :=
  match fuel with
  | 0 => []
  | fuel + 1 =>
    let t := punyThreshold k bias
    if q < t then [punyDigitChar q]
    else
      punyDigitChar (t + (q - t) % (36 - t)) ::
        punyVarint fuel ((q - t) / (36 - t)) (k + 36) bias

/-- Scaling loop of the punycode bias adaptation (RFC 3492 section 6.1). -/
def punyAdaptLoop (fuel delta k : Nat) : Nat × Nat :=
  match fuel with
  | 0 => (delta, k)
  | fuel + 1 =>
    if 455 < delta then punyAdaptLoop fuel (delta / 35) (k + 36)
    else (delta, k)

/-- Bias adaptation of the punycode encoder (RFC 3492 section 6.1). -/
def punyAdapt (delta numpoints : Nat) (firsttime : Bool) : Nat :=
  let d := if firsttime then delta / 700 else delta / 2
  let d := d + d / numpoints
  let (d, k) := punyAdaptLoop (d + 1) d 0
  k + 36 * d / (d + 38)

/-- Insert a value into a sorted list, keeping it sorted and duplicate-free. -/
def insertSortedDedup (x : Nat) : List Nat → List Nat
  | [] => [x]
  | y :: t =>
    if x < y then x :: y :: t
    else if x = y then y :: t
    else y :: insertSortedDedup x t

/-- Inner scan of the punycode encoder: walk the code points once for the
current non-basic value `m`, counting smaller code points into `delta` and
emitting one variable-length integer per occurrence of `m`.
State: `(delta, bias, h, output)`. -/
def punyScan (m b : Nat) (cps : List Nat) :
    Nat × Nat × Nat × List Char → Nat × Nat × Nat × List Char
  | (delta, bias, h, out) =>
    match cps with
    | [] => (delta, bias, h, out)
    | c :: rest =>
      if c < m then punyScan m b rest (delta + 1, bias, h, out)
      else if c = m then
        punyScan m b rest
          (0, punyAdapt delta (h + 1) (h = b), h + 1,
           out ++ punyVarint (delta + 1) delta 36 bias)
      else punyScan m b rest (delta, bias, h, out)

/-- Outer loop of the punycode encoder: process each distinct non-basic code
point value in increasing order.  State: `(n, delta, bias, h, output)`. -/
def punyOuter (b : Nat) (cps : List Nat) :
    List Nat → Nat × Nat × Nat × Nat × List Char → List Char
  | [], (_, _, _, _, out) => out
  | m :: ms, (n, delta, bias, h, out) =>
    let delta := delta + (m - n) * (h + 1)
    let (delta, bias, h, out) := punyScan m b cps (delta, bias, h, out)
    punyOuter b cps ms (m + 1, delta + 1, bias, h, out)

/-- Modelled from the spec: punycode (RFC 3492) encoding of one non-ASCII
domain label into its `xn--`-prefixed ASCII-compatible form, as the external
IDN library used by the missing `utils.ts` performs. -/
def punycodeLabel (cs : List Char) : List Char :=
  let cps := cs.map Char.toNat
  let basic := cs.filter (fun c => c.toNat < 128)
  let nonBasic := (cps.filter (fun v => 128 ≤ v)).foldr insertSortedDedup []
  let encoded :=
    punyOuter basic.length cps nonBasic (128, 0, 72, basic.length, [])
  'x' :: 'n' :: '-' :: '-' ::
    (basic ++ (if basic.length = 0 then [] else ['-']) ++ encoded)

/-- Allowed characters of a canonical (lowercased) ASCII DNS label:
letters, digits, hyphen. -/
def allowedLabelChar (c : Char) : Bool :=
  let n := c.toNat
  (97 ≤ n && n ≤ 122) || (48 ≤ n && n ≤ 57) || n = 45

/-- Split a character sequence into labels at `.` separators (keeping empty
labels so they can be rejected). -/
def splitLabels : List Char → List (List Char)
  | [] => [[]]
  | c :: t =>
    match splitLabels t with
    | r :: rs => if c = '.' then [] :: r :: rs else (c :: r) :: rs
    | [] => [[c]]

/-- Canonicalize one DNS label: lowercase it, punycode it when it contains
non-ASCII characters, then validate the resulting ASCII label (allowed
characters, 1–63 bytes). -/
def encodeLabel (l : List Char) : Except String (List Nat) :=
  let lower := l.map Char.toLower
  let ascii :=
    if lower.all (fun c => c.toNat < 128) then lower else punycodeLabel lower
  if ascii.all allowedLabelChar ∧ 1 ≤ ascii.length ∧ ascii.length ≤ 63 then
    .ok (ascii.map Char.toNat)
  else .error (String.mk ('i' :: 'n' :: 'v' :: 'a' :: 'l' :: 'i' :: 'd' ::
    ' ' :: 'l' :: 'a' :: 'b' :: 'e' :: 'l' :: ':' :: ' ' :: l))

/-- Canonicalize every label of a domain, in order. -/
def encodeLabels : List (List Char) → Except String (List (List Nat))
  | [] => .ok []
  | l :: ls => do
    let b ← encodeLabel l
    let bs ← encodeLabels ls
    .ok (b :: bs)

/-- Assemble canonicalized labels into the wire encoding: reverse the label
order and terminate every label with a single zero byte. -/
def dnsAssemble (bss : List (List Nat)) : List Nat :=
  (bss.reverse.map (fun b => b ++ [0])).flatten

/-- Label-splitting, canonicalization and assembly of a (non-root, already
dot-stripped) domain: reject empty labels, canonicalize each label, assemble,
and reject a total encoding larger than 126 bytes. -/
def encodeDnsBody (cs : List Char) : Except String (List Nat) :=
  let labels := splitLabels cs
  if labels.any (fun l => l = []) then
    .error "Domain contains an empty label"
  else do
    let bs ← encodeLabels labels
    let encoded := dnsAssemble bs
    let n := encoded.length
    if 126 < n then
      .error (s!"Encoded name is {n} bytes, maximum is 126")
    else
      .ok encoded

/-- Modelled from the spec: `encodeDnsName` of the missing `utils.ts` —
encode a human-readable domain into the TEP-81 wire form: strip one optional
trailing dot (the bare root `.` becomes a single zero byte), split into
labels, reject empty labels, canonicalize each label (lowercase, punycode for
non-ASCII, character validation, 63-byte ceiling), reverse the label order,
terminate every label with a zero byte, and reject a total encoding larger
than 126 bytes. -/
def encodeDnsName (domain : String) : Except String (List Nat) :=
  if domain = "" then
    .error "Domain must be a non-empty string"
  else
    let cs := domain.data
    let cs := if cs.getLast? = some '.' then cs.dropLast else cs
    if cs = [] then .ok [0] else encodeDnsBody cs

/-- Decidable equality for `Except`, so that concrete runs of the fallible
embedded operations can be checked by `decide`. -/
instance {e a : Type} [DecidableEq e] [DecidableEq a] :
    DecidableEq (Except e a) := fun x y =>
  match x, y with
  | .ok v, .ok w =>
    match decEq v w with
    | isTrue h => isTrue (by rw [h])
    | isFalse h => isFalse (by intro hc; cases hc; exact h rfl)
  | .error v, .error w =>
    match decEq v w with
    | isTrue h => isTrue (by rw [h])
    | isFalse h => isFalse (by intro hc; cases hc; exact h rfl)
  | .ok _, .error _ => isFalse (by intro hc; cases hc)
  | .error _, .ok _ => isFalse (by intro hc; cases hc)

/-- Parse an optionally-negated decimal integer. -/
def parseInt? (cs : List Char) : Option Int :=
  let digits (ds : List Char) : Option Nat :=
    if ds ≠ [] ∧ ds.all (fun c => 48 ≤ c.toNat ∧ c.toNat ≤ 57) then
      some (ds.foldl (fun acc c => acc * 10 + (c.toNat - 48)) 0)
    else none
  match cs with
  | '-' :: rest => (digits rest).map (fun n => -(n : Int))
  | _ => (digits cs).map (fun n => (n : Int))

/-- Structural account identity produced by address parsing: a network id and
a 32-byte account hash. -/
structure ParsedAddress where
  workChain : Int
  hash : List Nat
deriving DecidableEq, Repr

/-- Modelled from the spec: the external address parser (`@ton/core`
`Address.parse`), covering the raw `workchain:hex` textual form — the
workchain is a decimal integer and the hash is exactly 64 case-insensitive
hexadecimal digits; it fails on malformed text. -/
def parseAddress (s : String) : Except String ParsedAddress :=
  match s.data.splitOn ':' with
  | [wcs, hs] =>
    match parseInt? wcs, (if hs.length = 64 then hexDecode hs else none) with
    | some wc, some h => .ok ⟨wc, h⟩
    | _, _ => .error "Invalid address"
  | _ => .error "Invalid address"

/-- Payload tagged union of `src/types.ts`: text, binary (base64-carried
bytes), or cell (TL-B schema string plus base64-carried cell blob). -/
inductive SignDataPayload where
  | text (text : String)
  | binary (bytes : String)
  | cell (schema : String) (cell : String)
deriving DecidableEq, Repr

/-- Signing parameters of `src/types.ts` (`SignDataParams`). -/
structure SignDataParams where
  payload : SignDataPayload
  domain : String
  privateKey : List Nat
  address : String

/-- Signed result of `src/types.ts` (`SignDataResult`): the durable artifact
whose own fields are re-fed into verification. -/
structure SignDataResult where
  signature : String
  address : String
  timestamp : Nat
  domain : String
  payload : SignDataPayload
deriving DecidableEq, Repr

/-- Modelled from the spec: the external fixed-output collision-resistant
hashing primitive (SHA-256).  Idealized as an injective embedding of the
input (collision resistance becomes actual injectivity); the fixed output
width plays no role in the verified properties. -/
def sha256M (m : List Nat) : List Nat :=
  0 :: m

/-- Modelled from the spec: the canonical content hash of a decoded
structural blob, supplied by the external Cell collaborator. -/
def cellHashM (blob : List Nat) : List Nat :=
  sha256M blob

/-- Modelled from the spec: the external Ed25519 detached-signing primitive
(`nacl.sign.detached`).  In `tweetnacl` the 64-byte secret key carries the
public key as its second half; idealized here as the signed digest followed
by that public key, so that a signature determines exactly the digest/key
pair it was made for. -/
def naclSignDetached (msg secretKey : List Nat) : List Nat :=
  msg ++ secretKey.drop 32

/-- Modelled from the spec: the external Ed25519 detached-verification
primitive (`nacl.sign.detached.verify`).  Like `tweetnacl` it rejects
inputs of invalid size with an error (a thrown `TypeError`) before any
comparison: a signature too short to carry the primitive's fixed-size
components, or a public key that is not 32 bytes. -/
def naclVerifyDetached (msg sig publicKey : List Nat) : Except String Bool :=
  if sig.length < 32 then .error "bad signature size"
  else if publicKey.length ≠ 32 then .error "bad public key size"
  else .ok (sig = msg ++ publicKey)

/-- Modelled from the spec: the external structural-data codec's decoder
(`Cell.fromBoc` on the base64-decoded blob): a serialized bag-of-cells must
begin with the BoC magic bytes; anything else is undecodable. -/
def cellFromBoc (bytes : List Nat) : Except String (List Nat) :=
  match bytes with
  | 0xB5 :: 0xEE :: 0x9C :: 0x72 :: _ => .ok bytes
  | _ => .error "Invalid cell: magic mismatch"

/-- Constant domain-separation tag of the digest assembler. -/
def signDataTag : List Nat :=
  utf8 "ton-connect/sign-data/"

/-- Modelled from the spec: the digest assembler's fixed-order byte layout —
domain-separation tag, account identity (workchain big-endian int32 and
32-byte hash), length-prefixed canonical domain bytes, 64-bit big-endian
timestamp, then the payload-type discriminator and its canonicalized
bytes/hashes. -/
def signMessageCore (addr : ParsedAddress) (domBytes : List Nat)
    (timestamp : Nat) (seg : List Nat) : List Nat :=
  signDataTag ++ i32be addr.workChain ++ addr.hash ++
    u32be domBytes.length ++ domBytes ++ u64be timestamp ++ seg

/-- Modelled from the spec: the payload canonicalizer — each variant yields
its discriminator tag followed by its length-prefixed canonical bytes (text:
UTF-8 bytes; binary: the base64-decoded raw bytes, failing on malformed
base64; cell: the schema-descriptor hash and the decoded blob's content
hash, failing on malformed base64 or an undecodable blob). -/
def payloadSegment (payload : SignDataPayload) : Except String (List Nat) :=
  match payload with
  | .text t =>
    let content := utf8 t
    .ok (utf8 "txt" ++ u32be content.length ++ content)
  | .binary b =>
    match decodeBase64Strict b with
    | some content => .ok (utf8 "bin" ++ u32be content.length ++ content)
    | none => .error "Invalid base64 in binary payload"
  | .cell schema c =>
    match decodeBase64Strict c with
    | some raw => do
      let blob ← cellFromBoc raw
      let sh := sha256M (utf8 schema)
      let ch := cellHashM blob
      .ok (utf8 "cel" ++ u32be sh.length ++ sh ++ u32be ch.length ++ ch)
    | none => .error "Invalid base64 in cell payload"

/-- Guard of `Buffer.writeInt32BE` / `writeBigUInt64BE` / `writeUInt32BE`:
the numeric fields written into the assembled message must fit their fixed
widths, otherwise the write throws. -/
def checkWidths (addr : ParsedAddress) (domBytes : List Nat)
    (timestamp : Nat) : Except String Unit :=
  if addr.workChain < -2147483648 ∨ 2147483648 ≤ addr.workChain then
    .error "workchain out of int32 range"
  else if 18446744073709551616 ≤ timestamp then
    .error "timestamp out of uint64 range"
  else if 4294967296 ≤ domBytes.length then
    .error "domain too long"
  else .ok ()

/-- Modelled from the spec: `createTextBinaryHash` of the missing
`utils.ts` — canonicalize the domain, canonicalize the text/binary payload,
assemble the fixed-order message and reduce it with the hashing primitive.
(Called only with text or binary payloads, as in the source.) -/
def createTextBinaryHash (payload : SignDataPayload) (parsedAddr : ParsedAddress)
    (domain : String) (timestamp : Nat) : Except String (List Nat) := do
  let domBytes ← encodeDnsName domain
  let _ ← checkWidths parsedAddr domBytes timestamp
  let seg ← payloadSegment payload
  .ok (sha256M (signMessageCore parsedAddr domBytes timestamp seg))

/-- Modelled from the spec: `createCellHash` of the missing `utils.ts` —
canonicalize the domain, decode the cell blob and mix the schema hash and
the blob's content hash into the fixed-order message, reduced with the
hashing primitive. -/
def createCellHash (payload : SignDataPayload) (parsedAddr : ParsedAddress)
    (domain : String) (timestamp : Nat) : Except String (List Nat) := do
  let domBytes ← encodeDnsName domain
  let _ ← checkWidths parsedAddr domBytes timestamp
  let seg ← payloadSegment payload
  .ok (sha256M (signMessageCore parsedAddr domBytes timestamp seg))

/-- Discriminates the payload kinds exactly as the ternary in `sign.ts` and
`verify.ts`: `payload.type === 'cell' ? createCellHash(...) :
createTextBinaryHash(...)`. -/
def finalHashOf (payload : SignDataPayload) (parsedAddr : ParsedAddress)
    (domain : String) (timestamp : Nat) : Except String (List Nat) :=
  match payload with
  | .cell s c => createCellHash (.cell s c) parsedAddr domain timestamp
  | p => createTextBinaryHash p parsedAddr domain timestamp

/-- Embedding of `signData` from `src/sign.ts`: capture the wall clock in
whole seconds (`Math.floor(Date.now() / 1000)`, with the ambient `Date.now`
millisecond clock passed explicitly as `nowMs`), parse the address, build
the payload-type-dependent final hash, sign it with Ed25519, and return the
signature (base64) together with the caller's fields verbatim. -/
def signData (params : SignDataParams) (nowMs : Nat) :
    Except String SignDataResult := do
  let timestamp := nowMs / 1000
  let parsedAddr ← parseAddress params.address
  let finalHash ← finalHashOf params.payload parsedAddr params.domain timestamp
  let signature := naclSignDetached finalHash params.privateKey
  .ok { signature := encodeBase64 signature, address := params.address,
        timestamp := timestamp, domain := params.domain,
        payload := params.payload }

/-- The digest recomputation performed by `verifySignData` in
`src/verify.ts`: parse the carried address and rebuild the final hash from
the carried timestamp, domain and payload. -/
def verifyDigest (signedData : SignDataResult) : Except String (List Nat) := do
  let parsedAddr ← parseAddress signedData.address
  finalHashOf signedData.payload parsedAddr signedData.domain
    signedData.timestamp

/-- Embedding of `verifySignData` from `src/verify.ts`: recompute the final
hash from the carried fields, base64-decode the carried signature with the
lenient `Buffer` decoder, and hand both directly to the Ed25519 verification
primitive, returning its result — note the absence of any error handling
around the parse, hash and primitive calls. -/
def verifySignData (signedData : SignDataResult) (publicKey : List Nat) :
    Except String Bool := do
  let finalHash ← verifyDigest signedData
  naclVerifyDetached finalHash (decodeBase64Node signedData.signature)
    publicKey

/-! ## Small monadic reduction lemmas -/

@[simp] theorem exceptBind_ok {e a b : Type} (v : a) (f : a → Except e b) :
    (Except.ok v >>= f) = f v := rfl

@[simp] theorem exceptBind_error {e a b : Type} (err : e)
    (f : a → Except e b) :
    ((Except.error err : Except e a) >>= f) = Except.error err := rfl

/-! ## Byte-range lemmas: every assembled byte sequence is genuine byte data -/

theorem utf8Char_lt (c : Char) : ∀ b ∈ utf8Char c, b < 256 := by
  intro b hb
  simp only [utf8Char] at hb
  by_cases h1 : c.toNat < 128 <;> by_cases h2 : c.toNat < 2048 <;>
    by_cases h3 : c.toNat < 65536 <;>
    simp [h1, h2, h3, List.mem_cons] at hb <;> omega

theorem utf8_lt (s : String) : ∀ b ∈ utf8 s, b < 256 := by
  unfold utf8
  induction s.data with
  | nil => simp
  | cons c t ih =>
    intro b hb
    simp only [List.foldr_cons, List.mem_append] at hb
    rcases hb with hb | hb
    · exact utf8Char_lt c b hb
    · exact ih b hb

theorem u32be_lt (n : Nat) : ∀ b ∈ u32be n, b < 256 := by
  intro b hb
  simp only [u32be, List.mem_cons, List.not_mem_nil, or_false] at hb
  rcases hb with h | h | h | h <;> omega

theorem u64be_lt (n : Nat) : ∀ b ∈ u64be n, b < 256 := by
  intro b hb
  simp only [u64be, List.mem_cons, List.not_mem_nil, or_false] at hb
  rcases hb with h | h | h | h | h | h | h | h <;> omega

theorem i32be_lt (i : Int) : ∀ b ∈ i32be i, b < 256 :=
  u32be_lt _

theorem hexVal_lt (c : Char) (v : Nat) (h : hexVal c = some v) : v < 16 := by
  simp only [hexVal] at h
  split at h
  · simp at h; omega
  · split at h
    · simp at h; omega
    · split at h
      · simp at h; omega
      · simp at h

theorem hexDecode_lt :
    ∀ (cs : List Char) (bs : List Nat), hexDecode cs = some bs →
      ∀ b ∈ bs, b < 256
  | [], bs, h => by
    simp only [hexDecode, Option.some.injEq] at h
    simp [← h]
  | [_], bs, h => by simp [hexDecode] at h
  | c1 :: c2 :: rest, bs, h => by
    have ih := hexDecode_lt rest
    unfold hexDecode at h
    cases hv1 : hexVal c1 <;> rw [hv1] at h
    case none => simp at h
    cases hv2 : hexVal c2 <;> rw [hv2] at h
    case none => simp at h
    cases hr : hexDecode rest <;> rw [hr] at h
    case none => simp at h
    simp only [Option.some.injEq] at h
    intro b hb
    rw [← h] at hb
    simp only [List.mem_cons] at hb
    rcases hb with hb | hb
    · have b1 := hexVal_lt _ _ hv1
      have b2 := hexVal_lt _ _ hv2
      omega
    · exact ih _ hr b hb

theorem hexDecode_length :
    ∀ (cs : List Char) (bs : List Nat), hexDecode cs = some bs →
      2 * bs.length = cs.length
  | [], bs, h => by
    simp only [hexDecode, Option.some.injEq] at h
    simp [← h]
  | [_], bs, h => by simp [hexDecode] at h
  | c1 :: c2 :: rest, bs, h => by
    have ih := hexDecode_length rest
    unfold hexDecode at h
    cases hv1 : hexVal c1 <;> rw [hv1] at h
    case none => simp at h
    cases hv2 : hexVal c2 <;> rw [hv2] at h
    case none => simp at h
    cases hr : hexDecode rest <;> rw [hr] at h
    case none => simp at h
    simp only [Option.some.injEq] at h
    have := ih _ hr
    rw [← h]
    simp only [List.length_cons]
    omega

theorem parseAddress_hash (s : String) (a : ParsedAddress)
    (h : parseAddress s = .ok a) :
    a.hash.length = 32 ∧ ∀ b ∈ a.hash, b < 256 := by
  unfold parseAddress at h
  split at h
  case h_1 wcs hs heq =>
    cases hwc : parseInt? wcs <;> rw [hwc] at h
    case none => simp at h
    cases hhx : (if hs.length = 64 then hexDecode hs else none) <;>
      rw [hhx] at h
    case none => simp at h
    simp only [Except.ok.injEq] at h
    subst h
    split at hhx
    case isTrue hlen =>
      have h1 := hexDecode_length _ _ hhx
      have h2 := hexDecode_lt _ _ hhx
      exact ⟨by simpa using by omega, by simpa using h2⟩
    case isFalse => simp at hhx
  case h_2 => simp at h

theorem b64CharVal_lt (c : Char) (v : Nat) (h : b64CharVal c = some v) :
    v < 64 := by
  simp only [b64CharVal] at h
  split at h
  · simp at h; omega
  · split at h
    · simp at h; omega
    · split at h
      · simp at h
        have : c.toNat ≤ 57 := by omega
        omega
      · split at h
        · simp at h; omega
        · split at h
          · simp at h; omega
          · simp at h

theorem b64Group_lt :
    ∀ l : List Nat, (∀ v ∈ l, v < 64) → ∀ b ∈ b64Group l, b < 256
  | s0 :: s1 :: s2 :: s3 :: t, hl => by
    have ih := b64Group_lt t
    intro b hb
    simp only [b64Group, List.mem_cons] at hb
    have h0 := hl s0 (by simp)
    have h1 := hl s1 (by simp)
    have h2 := hl s2 (by simp)
    have h3 := hl s3 (by simp)
    rcases hb with hb | hb | hb | hb
    · omega
    · omega
    · omega
    · exact ih (fun v hv => hl v (by simp [hv])) b hb
  | [s0, s1, s2], hl => by
    intro b hb
    simp only [b64Group, List.mem_cons, List.not_mem_nil, or_false] at hb
    have h0 := hl s0 (by simp)
    have h1 := hl s1 (by simp)
    have h2 := hl s2 (by simp)
    rcases hb with hb | hb <;> omega
  | [s0, s1], hl => by
    intro b hb
    simp only [b64Group, List.mem_cons, List.not_mem_nil, or_false] at hb
    have h0 := hl s0 (by simp)
    have h1 := hl s1 (by simp)
    omega
  | [_], _ => by simp [b64Group]
  | [], _ => by simp [b64Group]

theorem decodeBase64Node_lt (s : String) :
    ∀ b ∈ decodeBase64Node s, b < 256 := by
  unfold decodeBase64Node
  refine b64Group_lt _ ?_
  intro v hv
  rcases List.mem_filterMap.1 hv with ⟨c, _, hc⟩
  exact b64CharVal_lt c v hc

theorem decodeBase64Strict_lt (s : String) (bs : List Nat)
    (h : decodeBase64Strict s = some bs) : ∀ b ∈ bs, b < 256 := by
  simp only [decodeBase64Strict] at h
  split at h
  · simp only [Option.some.injEq] at h
    subst h
    refine b64Group_lt _ ?_
    intro v hv
    rcases List.mem_filterMap.1 hv with ⟨c, _, hc⟩
    exact b64CharVal_lt c v hc
  · simp at h

theorem allowedLabelChar_toNat_lt (c : Char)
    (h : allowedLabelChar c = true) : c.toNat < 256 := by
  simp only [allowedLabelChar, Bool.or_eq_true, Bool.and_eq_true,
    decide_eq_true_eq] at h
  omega

theorem encodeLabel_lt (l : List Char) (bs : List Nat)
    (h : encodeLabel l = .ok bs) : ∀ b ∈ bs, b < 256 := by
  simp only [encodeLabel] at h
  split at h
  · split at h
    · rename_i hcond
      simp only [Except.ok.injEq] at h
      subst h
      intro b hb
      rcases List.mem_map.1 hb with ⟨c, hcm, hcv⟩
      subst hcv
      exact allowedLabelChar_toNat_lt c (List.all_eq_true.1 hcond.1 c hcm)
    · simp at h
  · split at h
    · rename_i hcond
      simp only [Except.ok.injEq] at h
      subst h
      intro b hb
      rcases List.mem_map.1 hb with ⟨c, hcm, hcv⟩
      subst hcv
      exact allowedLabelChar_toNat_lt c (List.all_eq_true.1 hcond.1 c hcm)
    · simp at h

theorem encodeLabels_lt :
    ∀ (ls : List (List Char)) (bss : List (List Nat)),
      encodeLabels ls = .ok bss → ∀ bs ∈ bss, ∀ b ∈ bs, b < 256
  | [], bss, h => by
    simp only [encodeLabels, Except.ok.injEq] at h
    simp [← h]
  | l :: ls, bss, h => by
    have ih := encodeLabels_lt ls
    simp only [encodeLabels] at h
    cases he : encodeLabel l <;> rw [he] at h
    case error => simp at h
    cases hes : encodeLabels ls <;> rw [hes] at h
    case error => simp at h
    simp only [exceptBind_ok, Except.ok.injEq] at h
    subst h
    intro bs hbs
    simp only [List.mem_cons] at hbs
    rcases hbs with hbs | hbs
    · subst hbs; exact encodeLabel_lt _ _ he
    · exact ih _ hes bs hbs

theorem dnsAssemble_lt (bss : List (List Nat))
    (hb : ∀ bs ∈ bss, ∀ b ∈ bs, b < 256) :
    ∀ b ∈ dnsAssemble bss, b < 256 := by
  intro b hbm
  rcases List.mem_flatten.1 hbm with ⟨chunk, hchunk, hbc⟩
  rcases List.mem_map.1 hchunk with ⟨lbl, hlbl, hlv⟩
  subst hlv
  simp only [List.mem_append, List.mem_singleton] at hbc
  rcases hbc with hbc | hbc
  · exact hb lbl (List.mem_reverse.1 hlbl) b hbc
  · omega

theorem encodeDnsBody_ok (cs : List Char) (bs : List Nat)
    (h : encodeDnsBody cs = .ok bs) :
    bs.length ≤ 126 ∧ ∀ b ∈ bs, b < 256 := by
  simp only [encodeDnsBody] at h
  split at h
  · simp at h
  · cases hes : encodeLabels (splitLabels cs) <;> rw [hes] at h
    case error => simp at h
    case ok bss =>
      simp only [exceptBind_ok] at h
      split at h
      · simp at h
      · case isFalse hn =>
        simp only [Except.ok.injEq] at h
        subst h
        exact ⟨by omega, dnsAssemble_lt bss (encodeLabels_lt _ _ hes)⟩

theorem encodeDnsName_ok (domain : String) (bs : List Nat)
    (h : encodeDnsName domain = .ok bs) :
    bs.length ≤ 126 ∧ ∀ b ∈ bs, b < 256 := by
  simp only [encodeDnsName] at h
  split at h
  · simp at h
  · split at h <;> split at h
    · simp only [Except.ok.injEq] at h
      subst h
      exact ⟨by simp, by simp⟩
    · exact encodeDnsBody_ok _ _ h
    · simp only [Except.ok.injEq] at h
      subst h
      exact ⟨by simp, by simp⟩
    · exact encodeDnsBody_ok _ _ h

theorem sha256M_lt (m : List Nat) (hm : ∀ b ∈ m, b < 256) :
    ∀ b ∈ sha256M m, b < 256 := by
  intro b hb
  simp only [sha256M, List.mem_cons] at hb
  rcases hb with hb | hb
  · omega
  · exact hm b hb

theorem payloadSegment_lt (p : SignDataPayload) (seg : List Nat)
    (h : payloadSegment p = .ok seg) : ∀ b ∈ seg, b < 256 := by
  cases p with
  | text t =>
    simp only [payloadSegment, Except.ok.injEq] at h
    subst h
    intro b hb
    simp only [List.mem_append] at hb
    rcases hb with (hb | hb) | hb
    · exact utf8_lt _ b hb
    · exact u32be_lt _ b hb
    · exact utf8_lt _ b hb
  | binary bytes =>
    simp only [payloadSegment] at h
    cases hd : decodeBase64Strict bytes <;> rw [hd] at h
    case none => simp at h
    case some content =>
      simp only [Except.ok.injEq] at h
      subst h
      intro b hb
      simp only [List.mem_append] at hb
      rcases hb with (hb | hb) | hb
      · exact utf8_lt _ b hb
      · exact u32be_lt _ b hb
      · exact decodeBase64Strict_lt _ _ hd b hb
  | cell schema c =>
    simp only [payloadSegment] at h
    cases hd : decodeBase64Strict c <;> rw [hd] at h
    case none => simp at h
    case some raw =>
      dsimp only at h
      cases hc : cellFromBoc raw <;> rw [hc] at h
      case error => simp at h
      case ok blob =>
        simp only [exceptBind_ok, Except.ok.injEq] at h
        subst h
        intro b hb
        simp only [List.mem_append] at hb
        have hraw := decodeBase64Strict_lt _ _ hd
        have hblob : ∀ b ∈ blob, b < 256 := by
          simp only [cellFromBoc] at hc
          split at hc
          · simp only [Except.ok.injEq] at hc; subst hc; exact hraw
          · simp at hc
        rcases hb with (((hb | hb) | hb) | hb) | hb
        · exact utf8_lt _ b hb
        · exact u32be_lt _ b hb
        · exact sha256M_lt _ (utf8_lt _) b hb
        · exact u32be_lt _ b hb
        · exact sha256M_lt _ hblob b hb

theorem signMessageCore_lt (addr : ParsedAddress) (domBytes : List Nat)
    (timestamp : Nat) (seg : List Nat)
    (hh : ∀ b ∈ addr.hash, b < 256) (hd : ∀ b ∈ domBytes, b < 256)
    (hs : ∀ b ∈ seg, b < 256) :
    ∀ b ∈ signMessageCore addr domBytes timestamp seg, b < 256 := by
  intro b hb
  simp only [signMessageCore, List.mem_append] at hb
  rcases hb with (((((hb | hb) | hb) | hb) | hb) | hb) | hb
  · exact utf8_lt _ b hb
  · exact i32be_lt _ b hb
  · exact hh b hb
  · exact u32be_lt _ b hb
  · exact hd b hb
  · exact u64be_lt _ b hb
  · exact hs b hb

theorem finalHashOf_eq (p : SignDataPayload) (a : ParsedAddress)
    (domain : String) (t : Nat) :
    finalHashOf p a domain t = createTextBinaryHash p a domain t := by
  cases p <;> rfl

theorem finalHashOf_ok (p : SignDataPayload) (a : ParsedAddress)
    (domain : String) (t : Nat) (dg : List Nat)
    (h : finalHashOf p a domain t = .ok dg) :
    ∃ domBytes seg, encodeDnsName domain = .ok domBytes ∧
      checkWidths a domBytes t = .ok () ∧
      payloadSegment p = .ok seg ∧
      dg = sha256M (signMessageCore a domBytes t seg) := by
  rw [finalHashOf_eq] at h
  simp only [createTextBinaryHash] at h
  cases hd : encodeDnsName domain <;> rw [hd] at h
  case error => simp at h
  case ok domBytes =>
    simp only [exceptBind_ok] at h
    cases hw : checkWidths a domBytes t <;> rw [hw] at h
    case error => simp at h
    case ok u =>
      cases u
      simp only [exceptBind_ok] at h
      cases hs : payloadSegment p <;> rw [hs] at h
      case error => simp at h
      case ok seg =>
        simp only [exceptBind_ok, Except.ok.injEq] at h
        exact ⟨domBytes, seg, rfl, hw, rfl, h.symm⟩

theorem finalHashOf_lt (p : SignDataPayload) (a : ParsedAddress)
    (domain : String) (t : Nat) (dg : List Nat)
    (hh : ∀ b ∈ a.hash, b < 256)
    (h : finalHashOf p a domain t = .ok dg) : ∀ b ∈ dg, b < 256 := by
  rcases finalHashOf_ok _ _ _ _ _ h with ⟨domBytes, seg, hd, _, hs, hdg⟩
  subst hdg
  exact sha256M_lt _ (signMessageCore_lt _ _ _ _ hh
    (encodeDnsName_ok _ _ hd).2 (payloadSegment_lt _ _ hs))

/-! ## Base64 roundtrip: the signature survives its trip through the
base64-string boundary -/

theorem b64CharVal_b64Char : ∀ v < 64, b64CharVal (b64Char v) = some v := by
  decide

theorem b64Sextets_lt :
    ∀ l : List Nat, (∀ b ∈ l, b < 256) → ∀ v ∈ b64Sextets l, v < 64
  | a :: b :: c :: t, hl => by
    have ih := b64Sextets_lt t
    intro v hv
    simp only [b64Sextets, List.mem_cons] at hv
    have ha := hl a (by simp)
    have hb := hl b (by simp)
    have hc := hl c (by simp)
    rcases hv with hv | hv | hv | hv | hv
    · omega
    · omega
    · omega
    · omega
    · exact ih (fun x hx => hl x (by simp [hx])) v hv
  | [a, b], hl => by
    intro v hv
    simp only [b64Sextets, List.mem_cons, List.not_mem_nil, or_false] at hv
    have ha := hl a (by simp)
    have hb := hl b (by simp)
    rcases hv with hv | hv | hv <;> omega
  | [a], hl => by
    intro v hv
    simp only [b64Sextets, List.mem_cons, List.not_mem_nil, or_false] at hv
    have ha := hl a (by simp)
    rcases hv with hv | hv <;> omega
  | [], _ => by simp [b64Sextets]

theorem filterMap_b64Char (l : List Nat) (hl : ∀ v ∈ l, v < 64) :
    (l.map b64Char).filterMap b64CharVal = l := by
  induction l with
  | nil => rfl
  | cons v t ih =>
    simp only [List.map_cons, List.filterMap_cons,
      b64CharVal_b64Char v (hl v (by simp))]
    rw [ih (fun x hx => hl x (by simp [hx]))]

theorem filterMap_b64Pad (l : List Nat) :
    (b64Pad l).filterMap b64CharVal = [] := by
  unfold b64Pad
  split
  · rfl
  · split <;> rfl

theorem b64Group_b64Sextets :
    ∀ l : List Nat, (∀ b ∈ l, b < 256) → b64Group (b64Sextets l) = l
  | a :: b :: c :: t, hl => by
    have ih := b64Group_b64Sextets t (fun x hx => hl x (by simp [hx]))
    have ha := hl a (by simp)
    have hb := hl b (by simp)
    have hc := hl c (by simp)
    simp only [b64Sextets, b64Group, ih]
    refine congrArg₂ _ (by omega) (congrArg₂ _ (by omega)
      (congrArg₂ _ (by omega) rfl))
  | [a, b], hl => by
    have ha := hl a (by simp)
    have hb := hl b (by simp)
    simp only [b64Sextets, b64Group]
    refine congrArg₂ _ (by omega) (congrArg₂ _ (by omega) rfl)
  | [a], hl => by
    have ha := hl a (by simp)
    simp only [b64Sextets, b64Group]
    refine congrArg₂ _ (by omega) rfl
  | [], _ => rfl

theorem decodeBase64Node_encodeBase64 (l : List Nat)
    (hl : ∀ b ∈ l, b < 256) : decodeBase64Node (encodeBase64 l) = l := by
  unfold decodeBase64Node encodeBase64
  show b64Group (((b64Sextets l).map b64Char ++ b64Pad l).filterMap
    b64CharVal) = l
  rw [List.filterMap_append, filterMap_b64Char _ (b64Sextets_lt _ hl),
    filterMap_b64Pad, List.append_nil]
  exact b64Group_b64Sextets l hl

theorem encodeBase64_inj (l1 l2 : List Nat) (h1 : ∀ b ∈ l1, b < 256)
    (h2 : ∀ b ∈ l2, b < 256) (he : encodeBase64 l1 = encodeBase64 l2) :
    l1 = l2 := by
  rw [← decodeBase64Node_encodeBase64 l1 h1,
    ← decodeBase64Node_encodeBase64 l2 h2, he]

/-! ## Injectivity of the assembled message: distinct canonical inputs give
distinct signed digests -/

theorem u32be_inj (n m : Nat) (hn : n < 4294967296) (hm : m < 4294967296)
    (h : u32be n = u32be m) : n = m := by
  simp only [u32be, List.cons.injEq, and_true] at h
  omega

theorem u64be_inj (n m : Nat) (hn : n < 18446744073709551616)
    (hm : m < 18446744073709551616) (h : u64be n = u64be m) : n = m := by
  simp only [u64be, List.cons.injEq, and_true] at h
  omega

theorem i32be_inj (i j : Int) (hi : -2147483648 ≤ i ∧ i < 2147483648)
    (hj : -2147483648 ≤ j ∧ j < 2147483648) (h : i32be i = i32be j) :
    i = j := by
  unfold i32be at h
  have := u32be_inj _ _ (by omega) (by omega) h
  omega

theorem u32be_length (n : Nat) : (u32be n).length = 4 := rfl

theorem u64be_length (n : Nat) : (u64be n).length = 8 := rfl

theorem i32be_length (i : Int) : (i32be i).length = 4 := rfl

theorem signDataTag_length : signDataTag.length = 22 := by decide

theorem signMessageCore_inj (a1 a2 : ParsedAddress) (d1 d2 : List Nat)
    (t1 t2 : Nat) (s1 s2 : List Nat)
    (hh1 : a1.hash.length = 32) (hh2 : a2.hash.length = 32)
    (hw1 : -2147483648 ≤ a1.workChain ∧ a1.workChain < 2147483648)
    (hw2 : -2147483648 ≤ a2.workChain ∧ a2.workChain < 2147483648)
    (ht1 : t1 < 18446744073709551616) (ht2 : t2 < 18446744073709551616)
    (hd1 : d1.length < 4294967296) (hd2 : d2.length < 4294967296)
    (h : signMessageCore a1 d1 t1 s1 = signMessageCore a2 d2 t2 s2) :
    a1 = a2 ∧ d1 = d2 ∧ t1 = t2 ∧ s1 = s2 := by
  unfold signMessageCore at h
  simp only [List.append_assoc] at h
  have h1 := List.append_cancel_left h
  have h2 := List.append_inj h1 (by rw [i32be_length, i32be_length])
  have hwc := i32be_inj _ _ hw1 hw2 h2.1
  have h3 := List.append_inj h2.2 (by rw [hh1, hh2])
  have hhash := h3.1
  have h4 := List.append_inj h3.2 (by rw [u32be_length, u32be_length])
  have hdl := u32be_inj _ _ hd1 hd2 h4.1
  have h5 := List.append_inj h4.2 hdl
  have hdom := h5.1
  have h6 := List.append_inj h5.2 (by rw [u64be_length, u64be_length])
  have hts := u64be_inj _ _ ht1 ht2 h6.1
  have hseg := h6.2
  refine ⟨?_, hdom, hts, hseg⟩
  cases a1
  cases a2
  simp only [ParsedAddress.mk.injEq]
  exact ⟨hwc, hhash⟩

/-! ## Characterizations of the facade operations -/

theorem checkWidths_ok (a : ParsedAddress) (d : List Nat) (t : Nat)
    (h : checkWidths a d t = .ok ()) :
    (-2147483648 ≤ a.workChain ∧ a.workChain < 2147483648) ∧
      t < 18446744073709551616 ∧ d.length < 4294967296 := by
  unfold checkWidths at h
  split at h
  · simp at h
  · split at h
    · simp at h
    · split at h
      · simp at h
      · rename_i hwc ht hd
        refine ⟨by omega, by omega, by omega⟩

theorem signData_ok (params : SignDataParams) (nowMs : Nat)
    (r : SignDataResult) (h : signData params nowMs = .ok r) :
    ∃ a dg, parseAddress params.address = .ok a ∧
      finalHashOf params.payload a params.domain (nowMs / 1000) = .ok dg ∧
      r = { signature := encodeBase64 (naclSignDetached dg params.privateKey),
            address := params.address, timestamp := nowMs / 1000,
            domain := params.domain, payload := params.payload } := by
  unfold signData at h
  cases ha : parseAddress params.address <;> rw [ha] at h
  case error => simp at h
  case ok a =>
    simp only [exceptBind_ok] at h
    cases hf : finalHashOf params.payload a params.domain (nowMs / 1000) <;>
      rw [hf] at h
    case error => simp at h
    case ok dg =>
      simp only [exceptBind_ok, Except.ok.injEq] at h
      exact ⟨a, dg, rfl, hf, h.symm⟩

theorem verifySignData_eq (r : SignDataResult) (pk : List Nat) :
    verifySignData r pk = (verifyDigest r).bind
      (fun dg => naclVerifyDetached dg (decodeBase64Node r.signature) pk) :=
  rfl

theorem verifyDigest_parse_ok (r : SignDataResult) (a : ParsedAddress)
    (ha : parseAddress r.address = .ok a) :
    verifyDigest r = finalHashOf r.payload a r.domain r.timestamp := by
  unfold verifyDigest
  rw [ha]
  rfl

theorem naclVerify_ok (dg pk : List Nat) (hpk : pk.length = 32) :
    naclVerifyDetached dg (dg ++ pk) pk = .ok true := by
  unfold naclVerifyDetached
  rw [if_neg (by simp [List.length_append]; omega), if_neg (by omega)]
  simp

theorem naclVerify_ne_digest (dg dg' pk : List Nat) (hpk : pk.length = 32)
    (hne : dg ≠ dg') : naclVerifyDetached dg' (dg ++ pk) pk = .ok false := by
  unfold naclVerifyDetached
  rw [if_neg (by simp [List.length_append]; omega), if_neg (by omega)]
  simp only [Except.ok.injEq, decide_eq_false_iff_not]
  intro hc
  exact hne (List.append_cancel_right hc)

theorem naclVerify_ne_key (dg pk pk' : List Nat) (hpk : pk.length = 32)
    (hpk' : pk'.length = 32) (hne : pk ≠ pk') :
    naclVerifyDetached dg (dg ++ pk) pk' = .ok false := by
  unfold naclVerifyDetached
  rw [if_neg (by simp [List.length_append]; omega), if_neg (by omega)]
  simp only [Except.ok.injEq, decide_eq_false_iff_not]
  intro hc
  exact hne (List.append_cancel_left hc)

theorem finalHashOf_inj (p1 p2 : SignDataPayload) (a1 a2 : ParsedAddress)
    (dom1 dom2 : String) (t1 t2 : Nat) (dg : List Nat)
    (hh1 : a1.hash.length = 32) (hh2 : a2.hash.length = 32)
    (h1 : finalHashOf p1 a1 dom1 t1 = .ok dg)
    (h2 : finalHashOf p2 a2 dom2 t2 = .ok dg) :
    a1 = a2 ∧ t1 = t2 ∧
      (∃ d, encodeDnsName dom1 = .ok d ∧ encodeDnsName dom2 = .ok d) ∧
      (∃ s, payloadSegment p1 = .ok s ∧ payloadSegment p2 = .ok s) := by
  rcases finalHashOf_ok _ _ _ _ _ h1 with ⟨d1, s1, hd1, hw1, hs1, he1⟩
  rcases finalHashOf_ok _ _ _ _ _ h2 with ⟨d2, s2, hd2, hw2, hs2, he2⟩
  rcases checkWidths_ok _ _ _ hw1 with ⟨hwc1, ht1, hdl1⟩
  rcases checkWidths_ok _ _ _ hw2 with ⟨hwc2, ht2, hdl2⟩
  have hm : signMessageCore a1 d1 t1 s1 = signMessageCore a2 d2 t2 s2 := by
    have := he1 ▸ he2
    simpa only [sha256M, List.cons.injEq, true_and] using this
  rcases signMessageCore_inj _ _ _ _ _ _ _ _ hh1 hh2 hwc1 hwc2 ht1 ht2
    hdl1 hdl2 hm with ⟨haeq, hdeq, hteq, hseq⟩
  subst hdeq
  subst hseq
  exact ⟨haeq, hteq, ⟨d1, hd1, hd2⟩, ⟨s1, hs1, hs2⟩⟩

@[simp] theorem exceptBindM_ok {e a b : Type} (v : a) (f : a → Except e b) :
    (Except.ok v).bind f = f v := rfl

@[simp] theorem exceptBindM_error {e a b : Type} (err : e)
    (f : a → Except e b) :
    ((Except.error err : Except e a)).bind f = Except.error err := rfl

/-! ## Concrete test fixtures for witnesses and counterexamples -/

set_option maxRecDepth 1000000

/-- A concrete 64-byte Ed25519 secret key for concrete runs. -/
def skW : List Nat := List.range 64

/-- The public key matching `skW` (second half of the secret key). -/
def pkW : List Nat := skW.drop 32

/-- A concrete raw-form address whose hash hex uses letters (so that case
can be varied without changing the parsed value). -/
def addrLower : String := "0:" ++ String.mk (List.replicate 64 'a')

/-- The same address as `addrLower` with the hash hex uppercased: a
different string that parses to the same account identity. -/
def addrUpper : String := "0:" ++ String.mk (List.replicate 64 'A')

/-- An address distinct from `addrLower` also after parsing. -/
def addrOther : String := "0:" ++ String.mk (List.replicate 64 'b')

/-- Concrete signing parameters (text payload). -/
def paramsW : SignDataParams :=
  { payload := .text "Hello, TON!", domain := "example.com",
    privateKey := skW, address := addrLower }

/-- A concrete wall-clock instant in milliseconds. -/
def nowW : Nat := 1703980800000

/-- The concrete signed result produced by `signData` on `paramsW`. -/
def resultW : SignDataResult :=
  (signData paramsW nowW).toOption.getD ⟨"", "", 0, "", SignDataPayload.text ""⟩

/-- The digest recomputed by verification from `resultW`. -/
def digestW : List Nat :=
  (verifyDigest resultW).toOption.getD []

/-- A carried result whose address text is malformed. -/
def badAddrResult : SignDataResult :=
  { signature := "", address := "junk", timestamp := 0,
    domain := "example.com", payload := SignDataPayload.text "x" }

/-! ## The claims -/

/-- **C1.** For every valid payload (text, binary, or cell), domain, address,
and Ed25519 keypair, verifying the result of `signData` with the matching
public key succeeds: `verifySignData (signData ...) publicKey = ok true`.
Validity is expressed by `signData` succeeding and the secret key being a
well-formed 64-byte key, whose matching public key is its second half. -/
theorem claim1_sign_verify_roundtrip (params : SignDataParams) (nowMs : Nat)
    (r : SignDataResult) (h : signData params nowMs = .ok r)
    (hlen : params.privateKey.length = 64)
    (hbytes : ∀ b ∈ params.privateKey, b < 256) :
    verifySignData r (params.privateKey.drop 32) = .ok true := by
  rcases signData_ok _ _ _ h with ⟨a, dg, ha, hf, hr⟩
  subst hr
  have hpk : (params.privateKey.drop 32).length = 32 := by
    simp [List.length_drop, hlen]
  have hdgb : ∀ b ∈ dg, b < 256 :=
    finalHashOf_lt _ _ _ _ _ (parseAddress_hash _ _ ha).2 hf
  have hsig : ∀ b ∈ naclSignDetached dg params.privateKey, b < 256 := by
    intro b hb
    unfold naclSignDetached at hb
    rcases List.mem_append.1 hb with hb | hb
    · exact hdgb b hb
    · exact hbytes b (List.mem_of_mem_drop hb)
  have hvd : verifyDigest
      { signature := encodeBase64 (naclSignDetached dg params.privateKey),
        address := params.address, timestamp := nowMs / 1000,
        domain := params.domain, payload := params.payload } = .ok dg := by
    rw [verifyDigest_parse_ok _ a ha]
    exact hf
  rw [verifySignData_eq, hvd]
  dsimp only
  rw [decodeBase64Node_encodeBase64 _ hsig]
  exact naclVerify_ok dg _ hpk

/-- Witness for C1 at a concrete input: signing a text payload with a
concrete key, domain and address, then verifying with the matching public
key, yields `ok true`. -/
theorem claim1_witness :
    signData paramsW nowW = .ok resultW ∧
      verifySignData resultW (paramsW.privateKey.drop 32) = .ok true :=
  ⟨by decide,
   claim1_sign_verify_roundtrip paramsW nowW resultW (by decide) (by decide)
     (by decide)⟩

/-- Counterexample to **C3** as stated: on a malformed carried address the
embedded `verifySignData` does not return the boolean `false` — it
propagates the address parser's failure (the TypeScript source has no
try/catch around `Address.parse`), here surfacing as an `error` outcome
rather than `ok false`. -/
theorem claim3_counterexample :
    verifySignData badAddrResult pkW = .error "Invalid address" ∧
      verifySignData badAddrResult pkW ≠ .ok false := by
  constructor
  · decide
  · decide

/-- **C3 (amended).** For malformed carried inputs (bad address text, a
domain that cannot be canonicalized, malformed payload base64, or an
undecodable cell blob), `verifySignData` does not return `false`: it
propagates the recomputation failure to its caller unchanged, exactly as
the unguarded source code does. -/
theorem claim3_amended_verify_propagates (r : SignDataResult)
    (pk : List Nat) (e : String) (h : verifyDigest r = .error e) :
    verifySignData r pk = .error e := by
  rw [verifySignData_eq, h]
  rfl

/-- Witness for the amended C3 at a concrete input: a malformed address
makes digest recomputation fail, and `verifySignData` surfaces exactly that
failure. -/
theorem claim3_amended_witness :
    verifyDigest badAddrResult = .error "Invalid address" ∧
      verifySignData badAddrResult pkW = .error "Invalid address" :=
  ⟨by decide,
   claim3_amended_verify_propagates badAddrResult pkW "Invalid address"
     (by decide)⟩

/-- **C8.** `signData` returns a result whose address, domain, and payload
fields are exactly the values supplied by the caller (unparsed, unencoded,
unmodified) and whose timestamp is the wall-clock instant captured at the
start of the call truncated to whole seconds
(`Math.floor(Date.now() / 1000)`). -/
theorem claim8_result_fields (params : SignDataParams) (nowMs : Nat)
    (r : SignDataResult) (h : signData params nowMs = .ok r) :
    r.address = params.address ∧ r.domain = params.domain ∧
      r.payload = params.payload ∧ r.timestamp = nowMs / 1000 := by
  rcases signData_ok _ _ _ h with ⟨a, dg, _, _, hr⟩
  subst hr
  exact ⟨rfl, rfl, rfl, rfl⟩

/-- Witness for C8 at a concrete input. -/
theorem claim8_witness :
    signData paramsW nowW = .ok resultW ∧
      resultW.address = paramsW.address ∧ resultW.domain = paramsW.domain ∧
      resultW.payload = paramsW.payload ∧
      resultW.timestamp = nowW / 1000 :=
  ⟨by decide, claim8_result_fields paramsW nowW resultW (by decide)⟩

/-- **C9.** The digest recomputed by `verifySignData` depends only on the
carried address, timestamp, domain and payload: replacing the signature
field leaves the recomputed digest unchanged, and the carried signature
reaches the outcome solely through the final Ed25519 verification step,
to which `verifySignData` hands the decoded signature directly. -/
theorem claim9_digest_ignores_signature (r : SignDataResult) (s : String)
    (pk : List Nat) :
    verifyDigest { r with signature := s } = verifyDigest r ∧
      verifySignData r pk = (verifyDigest r).bind
        (fun dg => naclVerifyDetached dg (decodeBase64Node r.signature) pk) :=
  ⟨rfl, rfl⟩

/-- **C10.** `verifySignData` performs no validation of the carried
signature string: once the digest recomputation succeeds, the outcome is
exactly the Ed25519 primitive applied to the directly base64-decoded
signature bytes — so when the primitive rejects an invalid-size signature
with an error, that error propagates out of `verifySignData` instead of
becoming the boolean `false`. -/
theorem claim10_signature_passthrough (r : SignDataResult) (pk : List Nat)
    (dg : List Nat) (h : verifyDigest r = .ok dg) :
    verifySignData r pk =
      naclVerifyDetached dg (decodeBase64Node r.signature) pk := by
  rw [verifySignData_eq, h]
  rfl

/-- The concrete result `resultW` with its signature field emptied. -/
def sigEmptyResult : SignDataResult :=
  { resultW with signature := "" }

/-- Witness for C10 at a concrete input: an empty carried signature decodes
to zero bytes, the primitive rejects the size with an error, and
`verifySignData` propagates that error. -/
theorem claim10_witness :
    verifyDigest sigEmptyResult = .ok digestW ∧
      verifySignData sigEmptyResult pkW = .error "bad signature size" :=
  ⟨by decide,
   (claim10_signature_passthrough sigEmptyResult pkW digestW
     (by decide)).trans (by decide)⟩

/-- **C5.** `encodeDnsName` emits the domain's labels in reversed order,
each label terminated by a single zero byte: `"tonkeeper.com"` encodes to
the 14 bytes `com\0tonkeeper\0`, the root `"."` to the single zero byte,
and the single label `"tonkeeper"` to the 10 bytes `tonkeeper\0`. -/
theorem claim5_dns_encoding_laws :
    encodeDnsName "tonkeeper.com" =
        .ok (utf8 "com" ++ [0] ++ utf8 "tonkeeper" ++ [0]) ∧
      (utf8 "com" ++ [0] ++ utf8 "tonkeeper" ++ [0]).length = 14 ∧
      encodeDnsName "." = .ok [0] ∧
      encodeDnsName "tonkeeper" = .ok (utf8 "tonkeeper" ++ [0]) ∧
      (utf8 "tonkeeper" ++ [0]).length = 10 := by
  refine ⟨by decide, by decide, by decide, by decide, by decide⟩

/-- The boundary-test domains of **C6**. -/
def label63Domain : String := String.mk (List.replicate 63 'a') ++ ".com"

/-- A domain with a 64-byte label (one past the per-label ceiling). -/
def label64Domain : String := String.mk (List.replicate 64 'a') ++ ".com"

/-- A domain whose encoding is exactly 126 bytes. -/
def total126Domain : String :=
  String.mk (List.replicate 63 'a') ++ "." ++
    String.mk (List.replicate 57 'b') ++ ".com"

/-- A domain whose encoding would be 127 bytes. -/
def total127Domain : String :=
  String.mk (List.replicate 63 'a') ++ "." ++
    String.mk (List.replicate 58 'b') ++ ".com"

/-- **C6.** `encodeDnsName` accepts a 63-byte label and rejects a 64-byte
label as an invalid label; it accepts a total encoded length of exactly 126
bytes and fails for 127 bytes or more with an explicit "encoded name too
large" condition naming the offending size — and no successful encoding
ever exceeds 126 bytes. -/
theorem claim6_dns_boundaries :
    encodeDnsName label63Domain =
        .ok (utf8 "com" ++ [0] ++ List.replicate 63 97 ++ [0]) ∧
      encodeDnsName label64Domain =
        .error ("invalid label: " ++ String.mk (List.replicate 64 'a')) ∧
      (∃ bs, encodeDnsName total126Domain = .ok bs ∧ bs.length = 126) ∧
      encodeDnsName total127Domain =
        .error "Encoded name is 127 bytes, maximum is 126" ∧
      ∀ d bs, encodeDnsName d = .ok bs → bs.length ≤ 126 := by
  refine ⟨by decide, by decide,
    ⟨(encodeDnsName total126Domain).toOption.getD [], by decide, by decide⟩,
    by decide, ?_⟩
  intro d bs h
  exact (encodeDnsName_ok d bs h).1

/-- Witness for C6: the universal 126-byte ceiling, instantiated at the
concrete maximal domain. -/
theorem claim6_witness :
    encodeDnsName total126Domain =
        .ok ((encodeDnsName total126Domain).toOption.getD []) ∧
      ((encodeDnsName total126Domain).toOption.getD []).length ≤ 126 :=
  ⟨by decide,
   claim6_dns_boundaries.2.2.2.2 total126Domain
     ((encodeDnsName total126Domain).toOption.getD []) (by decide)⟩

/-- **C7.** For binary and cell payloads, a malformed base64 string — or,
for cell, a blob the structural codec cannot decode — makes the sign or
verify call fail before any signature is produced or checked; undecodable
input is never silently replaced by empty bytes: the payload canonicalizer
fails, and both facades surface that failure instead of returning a
result. -/
theorem claim7_payload_decode_failures :
    (∀ b, decodeBase64Strict b = none →
      payloadSegment (.binary b) = .error "Invalid base64 in binary payload") ∧
    (∀ sch c, decodeBase64Strict c = none →
      payloadSegment (.cell sch c) = .error "Invalid base64 in cell payload") ∧
    (∀ sch c raw e, decodeBase64Strict c = some raw →
      cellFromBoc raw = .error e → payloadSegment (.cell sch c) = .error e) ∧
    (∀ (params : SignDataParams) (nowMs : Nat) (a : ParsedAddress)
        (d : List Nat) (e : String),
      parseAddress params.address = .ok a →
      encodeDnsName params.domain = .ok d →
      checkWidths a d (nowMs / 1000) = .ok () →
      payloadSegment params.payload = .error e →
      signData params nowMs = .error e) ∧
    (∀ (r : SignDataResult) (pk : List Nat) (a : ParsedAddress)
        (d : List Nat) (e : String),
      parseAddress r.address = .ok a →
      encodeDnsName r.domain = .ok d →
      checkWidths a d r.timestamp = .ok () →
      payloadSegment r.payload = .error e →
      verifySignData r pk = .error e) := by
  have hseg : ∀ (p : SignDataPayload) (a : ParsedAddress) (dom : String)
      (t : Nat) (d : List Nat) (e : String),
      encodeDnsName dom = .ok d → checkWidths a d t = .ok () →
      payloadSegment p = .error e →
      finalHashOf p a dom t = .error e := by
    intro p a dom t d e hd hw hp
    rw [finalHashOf_eq]
    unfold createTextBinaryHash
    rw [hd]
    simp only [exceptBind_ok]
    rw [hw]
    simp only [exceptBind_ok]
    rw [hp]
    rfl
  refine ⟨?_, ?_, ?_, ?_, ?_⟩
  · intro b hb
    simp only [payloadSegment, hb]
  · intro sch c hc
    simp only [payloadSegment, hc]
  · intro sch c raw e hc hraw
    simp only [payloadSegment, hc]
    rw [hraw]
    rfl
  · intro params nowMs a d e ha hd hw hp
    unfold signData
    rw [ha]
    simp only [exceptBind_ok]
    rw [hseg _ _ _ _ _ _ hd hw hp]
    rfl
  · intro r pk a d e ha hd hw hp
    rw [verifySignData_eq, verifyDigest_parse_ok _ _ ha,
      hseg _ _ _ _ _ _ hd hw hp]
    rfl

/-- A binary payload carrying malformed base64. -/
def badBinaryParams : SignDataParams :=
  { payload := .binary "!!!", domain := "example.com",
    privateKey := skW, address := addrLower }

/-- A carried result whose cell payload carries base64 that decodes but is
not a bag-of-cells (wrong magic). -/
def badCellResult : SignDataResult :=
  { signature := "", address := addrLower, timestamp := nowW / 1000,
    domain := "example.com", payload := .cell "message#_ = Message;" "AAAA" }

/-- Witness for C7 at concrete inputs: malformed base64 in a binary payload
makes `signData` fail, and a wrong-magic cell blob makes `verifySignData`
fail, in both cases before any signature is produced or checked. -/
theorem claim7_witness :
    decodeBase64Strict "!!!" = none ∧
      signData badBinaryParams nowW =
        .error "Invalid base64 in binary payload" ∧
      verifySignData badCellResult pkW =
        .error "Invalid cell: magic mismatch" :=
  ⟨by decide,
   claim7_payload_decode_failures.2.2.2.1 badBinaryParams nowW
     ⟨0, List.replicate 32 170⟩ (utf8 "com" ++ [0] ++ utf8 "example" ++ [0])
     "Invalid base64 in binary payload" (by decide) (by decide) (by decide)
     (by decide),
   claim7_payload_decode_failures.2.2.2.2 badCellResult pkW
     ⟨0, List.replicate 32 170⟩ (utf8 "com" ++ [0] ++ utf8 "example" ++ [0])
     "Invalid cell: magic mismatch" (by decide) (by decide) (by decide)
     (by decide)⟩

/-- Flip one bit (bit `k` of byte `i`) of a byte sequence. -/
def flipBit (l : List Nat) (i k : Nat) : List Nat :=
  l.set i (l.getD i 0 ^^^ 2 ^ k)

theorem xor_pow_ne (b k : Nat) : b ^^^ 2 ^ k ≠ b := by
  intro h
  have h0 : (2 : Nat) ^ k = b ^^^ (b ^^^ 2 ^ k) := by
    rw [← Nat.xor_assoc, Nat.xor_self, Nat.zero_xor]
  rw [h, Nat.xor_self] at h0
  have h1 : 1 ≤ 2 ^ k := Nat.one_le_two_pow
  omega

theorem flipBit_length (l : List Nat) (i k : Nat) :
    (flipBit l i k).length = l.length := by
  simp [flipBit]

theorem flipBit_ne (l : List Nat) (i k : Nat) (hi : i < l.length) :
    flipBit l i k ≠ l := by
  intro h
  have hg : (flipBit l i k).getD i 0 = l.getD i 0 := by rw [h]
  have hset : (flipBit l i k).getD i 0 = l.getD i 0 ^^^ 2 ^ k := by
    simp only [flipBit, List.getD_eq_getElem?_getD]
    rw [List.getElem?_set_self]
    · simp [List.getElem?_eq_getElem hi]
    · exact hi
  rw [hset] at hg
  exact xor_pow_ne _ _ hg

theorem sig_ne_of_digest_ne (dg1 dg2 sk : List Nat)
    (hsk : ∀ b ∈ sk, b < 256) (h1 : ∀ b ∈ dg1, b < 256)
    (h2 : ∀ b ∈ dg2, b < 256) (hne : dg1 ≠ dg2) :
    encodeBase64 (naclSignDetached dg1 sk) ≠
      encodeBase64 (naclSignDetached dg2 sk) := by
  intro h
  have hb1 : ∀ b ∈ naclSignDetached dg1 sk, b < 256 := by
    intro b hb
    rcases List.mem_append.1 hb with hb | hb
    · exact h1 b hb
    · exact hsk b (List.mem_of_mem_drop hb)
  have hb2 : ∀ b ∈ naclSignDetached dg2 sk, b < 256 := by
    intro b hb
    rcases List.mem_append.1 hb with hb | hb
    · exact h2 b hb
    · exact hsk b (List.mem_of_mem_drop hb)
  have := encodeBase64_inj _ _ hb1 hb2 h
  exact hne (List.append_cancel_right this)

/-- **C2 (amended).** Tamper sensitivity at the canonical level: given a
genuinely signed result, (1) replacing its fields by any well-formed values
whose canonical interpretation — parsed account identity, canonical domain
bytes, timestamp, or canonical payload segment — differs from the signed
one makes `verifySignData` return `false`; and (2) flipping any single bit
of any byte of the matching public key makes `verifySignData` return
`false`.  (Mutations that keep every canonical value unchanged, such as
changing hex case inside a raw address, do not: see the counterexample.) -/
theorem claim2_tamper_sensitivity :
    (∀ (params : SignDataParams) (nowMs : Nat) (r r' : SignDataResult)
        (a a' : ParsedAddress) (d d' s s' dg' : List Nat),
      signData params nowMs = .ok r →
      params.privateKey.length = 64 →
      (∀ b ∈ params.privateKey, b < 256) →
      r'.signature = r.signature →
      parseAddress params.address = .ok a →
      encodeDnsName params.domain = .ok d →
      payloadSegment params.payload = .ok s →
      parseAddress r'.address = .ok a' →
      encodeDnsName r'.domain = .ok d' →
      payloadSegment r'.payload = .ok s' →
      verifyDigest r' = .ok dg' →
      (a', d', r'.timestamp, s') ≠ (a, d, r.timestamp, s) →
      verifySignData r' (params.privateKey.drop 32) = .ok false) ∧
    (∀ (params : SignDataParams) (nowMs : Nat) (r : SignDataResult)
        (i k : Nat),
      signData params nowMs = .ok r →
      params.privateKey.length = 64 →
      (∀ b ∈ params.privateKey, b < 256) →
      i < 32 →
      verifySignData r (flipBit (params.privateKey.drop 32) i k) =
        .ok false) := by
  constructor
  · intro params nowMs r r' a a' d d' s s' dg' h hlen hbytes hsig ha hd hs
      ha' hd' hs' hvd' hne
    rcases signData_ok _ _ _ h with ⟨a0, dg, ha0, hf, hr⟩
    rw [ha0] at ha
    have haa : a0 = a := by simpa using ha
    subst haa
    have hpk : (params.privateKey.drop 32).length = 32 := by
      simp [List.length_drop, hlen]
    have hdgb : ∀ b ∈ dg, b < 256 :=
      finalHashOf_lt _ _ _ _ _ (parseAddress_hash _ _ ha0).2 hf
    have hsbytes : ∀ b ∈ naclSignDetached dg params.privateKey, b < 256 := by
      intro b hb
      rcases List.mem_append.1 hb with hb | hb
      · exact hdgb b hb
      · exact hbytes b (List.mem_of_mem_drop hb)
    have hts : r.timestamp = nowMs / 1000 := by rw [hr]
    have hsigdec : decodeBase64Node r'.signature =
        dg ++ params.privateKey.drop 32 := by
      rw [hsig, hr]
      exact decodeBase64Node_encodeBase64 _ hsbytes
    have hdgne : dg' ≠ dg := by
      intro heq
      subst heq
      have hf' : finalHashOf r'.payload a' r'.domain r'.timestamp =
          .ok dg' := (verifyDigest_parse_ok r' a' ha').symm.trans hvd'
      rcases finalHashOf_inj _ _ _ _ _ _ _ _ dg'
          (parseAddress_hash _ _ ha').1 (parseAddress_hash _ _ ha0).1
          hf' hf with ⟨haeq, hteq, ⟨d0, hdd1, hdd2⟩, ⟨s0, hss1, hss2⟩⟩
      apply hne
      have hdeq : d' = d := by
        have e1 : d' = d0 := by simpa using hd'.symm.trans hdd1
        have e2 : d = d0 := by simpa using hd.symm.trans hdd2
        rw [e1, e2]
      have hseq : s' = s := by
        have e1 : s' = s0 := by simpa using hs'.symm.trans hss1
        have e2 : s = s0 := by simpa using hs.symm.trans hss2
        rw [e1, e2]
      rw [haeq, hdeq, hseq, hteq, hts]
    rw [verifySignData_eq, hvd']
    simp only [exceptBindM_ok]
    rw [hsigdec]
    exact naclVerify_ne_digest dg dg' _ hpk (fun hcontra => hdgne hcontra.symm)
  · intro params nowMs r i k h hlen hbytes hi
    rcases signData_ok _ _ _ h with ⟨a, dg, ha, hf, hr⟩
    subst hr
    have hpk : (params.privateKey.drop 32).length = 32 := by
      simp [List.length_drop, hlen]
    have hdgb : ∀ b ∈ dg, b < 256 :=
      finalHashOf_lt _ _ _ _ _ (parseAddress_hash _ _ ha).2 hf
    have hsbytes : ∀ b ∈ naclSignDetached dg params.privateKey, b < 256 := by
      intro b hb
      rcases List.mem_append.1 hb with hb | hb
      · exact hdgb b hb
      · exact hbytes b (List.mem_of_mem_drop hb)
    have hvd : verifyDigest
        { signature := encodeBase64 (naclSignDetached dg params.privateKey),
          address := params.address, timestamp := nowMs / 1000,
          domain := params.domain, payload := params.payload } = .ok dg := by
      rw [verifyDigest_parse_ok _ a ha]
      exact hf
    have hplen : (flipBit (params.privateKey.drop 32) i k).length = 32 := by
      rw [flipBit_length]
      exact hpk
    have hne : params.privateKey.drop 32 ≠
        flipBit (params.privateKey.drop 32) i k :=
      (flipBit_ne _ _ k (by omega)).symm
    rw [verifySignData_eq, hvd]
    dsimp only
    rw [decodeBase64Node_encodeBase64 _ hsbytes]
    exact naclVerify_ne_key dg _ _ hpk hplen hne

/-- The parsed form of `addrLower` (and of `addrUpper`). -/
def parsedAddrW : ParsedAddress := ⟨0, List.replicate 32 170⟩

/-- Canonical domain bytes of `"example.com"`. -/
def domBytesW : List Nat := (encodeDnsName "example.com").toOption.getD []

/-- Canonical domain bytes of `"other.com"`. -/
def domBytesOther : List Nat := (encodeDnsName "other.com").toOption.getD []

/-- Canonical payload segment of the concrete text payload. -/
def segW : List Nat :=
  (payloadSegment (SignDataPayload.text "Hello, TON!")).toOption.getD []

/-- `resultW` with its domain field mutated to a canonically different
domain. -/
def mutatedDomainResult : SignDataResult :=
  { resultW with domain := "other.com" }

/-- The digest recomputed from the domain-mutated result. -/
def mutatedDigestW : List Nat :=
  (verifyDigest mutatedDomainResult).toOption.getD []

/-- Witness for the amended C2 at concrete inputs: mutating the domain to a
canonically different one, or flipping bit 0 of byte 0 of the public key,
makes verification return `ok false`. -/
theorem claim2_witness :
    verifySignData mutatedDomainResult (paramsW.privateKey.drop 32) =
        .ok false ∧
      verifySignData resultW (flipBit (paramsW.privateKey.drop 32) 0 0) =
        .ok false :=
  ⟨claim2_tamper_sensitivity.1 paramsW nowW resultW mutatedDomainResult
     parsedAddrW parsedAddrW domBytesW domBytesOther segW segW mutatedDigestW
     (by decide) (by decide) (by decide) (by decide) (by decide) (by decide)
     (by decide) (by decide) (by decide) (by decide) (by decide) (by decide),
   claim2_tamper_sensitivity.2 paramsW nowW resultW 0 0 (by decide)
     (by decide) (by decide) (by decide)⟩

/-- `resultW` with only its address field rewritten to the uppercase-hex
spelling of the same account. -/
def caseMutatedResult : SignDataResult :=
  { resultW with address := addrUpper }

/-- Counterexample to **C2** as stated: mutating the address field of a
signed result (to a different string that parses to the same account)
leaves verification succeeding — so not every single-field mutation makes
`verifySignData` return `false`. -/
theorem claim2_counterexample :
    caseMutatedResult ≠ resultW ∧
      verifySignData caseMutatedResult pkW = .ok true := by
  constructor
  · decide
  · decide

/-- **C4 (amended).** Determinism and input sensitivity of `signData`:
(1) two calls with identical parameters and captured timestamp produce the
identical result; (2) holding everything else fixed, a call whose captured
timestamp differs produces a different signature; (3) changing only the
domain produces a different signature whenever the canonical domain bytes
change; (4) changing only the address produces a different signature
whenever the parsed account identity changes.  (Address or domain text
changes that keep the canonical value — e.g. hex case in a raw address —
keep the signature: see the counterexample.) -/
theorem claim4_determinism_sensitivity :
    (∀ (params : SignDataParams) (nowMs : Nat) (r1 r2 : SignDataResult),
      signData params nowMs = .ok r1 → signData params nowMs = .ok r2 →
      r1 = r2) ∧
    (∀ (params : SignDataParams) (n1 n2 : Nat) (r1 r2 : SignDataResult),
      (∀ b ∈ params.privateKey, b < 256) →
      signData params n1 = .ok r1 → signData params n2 = .ok r2 →
      r1.timestamp ≠ r2.timestamp → r1.signature ≠ r2.signature) ∧
    (∀ (params : SignDataParams) (dom2 : String) (nowMs : Nat)
        (r1 r2 : SignDataResult) (d1 d2 : List Nat),
      (∀ b ∈ params.privateKey, b < 256) →
      signData params nowMs = .ok r1 →
      signData { params with domain := dom2 } nowMs = .ok r2 →
      encodeDnsName params.domain = .ok d1 → encodeDnsName dom2 = .ok d2 →
      d1 ≠ d2 → r1.signature ≠ r2.signature) ∧
    (∀ (params : SignDataParams) (addr2 : String) (nowMs : Nat)
        (r1 r2 : SignDataResult) (a1 a2 : ParsedAddress),
      (∀ b ∈ params.privateKey, b < 256) →
      signData params nowMs = .ok r1 →
      signData { params with address := addr2 } nowMs = .ok r2 →
      parseAddress params.address = .ok a1 → parseAddress addr2 = .ok a2 →
      a1 ≠ a2 → r1.signature ≠ r2.signature) := by
  refine ⟨?_, ?_, ?_, ?_⟩
  · intro params nowMs r1 r2 h1 h2
    rw [h1] at h2
    simpa using h2
  · intro params n1 n2 r1 r2 hbytes h1 h2 hts
    rcases signData_ok _ _ _ h1 with ⟨a1, dg1, ha1, hf1, hr1⟩
    rcases signData_ok _ _ _ h2 with ⟨a2, dg2, ha2, hf2, hr2⟩
    rw [ha1] at ha2
    have haa : a1 = a2 := by simpa using ha2
    subst haa
    have hb1 : ∀ b ∈ dg1, b < 256 :=
      finalHashOf_lt _ _ _ _ _ (parseAddress_hash _ _ ha1).2 hf1
    have hb2 : ∀ b ∈ dg2, b < 256 :=
      finalHashOf_lt _ _ _ _ _ (parseAddress_hash _ _ ha1).2 hf2
    have hdgne : dg1 ≠ dg2 := by
      intro heq
      subst heq
      rcases finalHashOf_inj _ _ _ _ _ _ _ _ dg1
          (parseAddress_hash _ _ ha1).1 (parseAddress_hash _ _ ha1).1
          hf1 hf2 with ⟨_, hteq, _, _⟩
      rw [hr1, hr2] at hts
      exact hts (by simpa using hteq)
    rw [hr1, hr2]
    exact sig_ne_of_digest_ne dg1 dg2 params.privateKey hbytes hb1 hb2 hdgne
  · intro params dom2 nowMs r1 r2 d1 d2 hbytes h1 h2 hd1 hd2 hdne
    rcases signData_ok _ _ _ h1 with ⟨a1, dg1, ha1, hf1, hr1⟩
    rcases signData_ok _ _ _ h2 with ⟨a2, dg2, ha2, hf2, hr2⟩
    dsimp only at ha2 hf2 hr2
    rw [ha1] at ha2
    have haa : a1 = a2 := by simpa using ha2
    subst haa
    have hb1 : ∀ b ∈ dg1, b < 256 :=
      finalHashOf_lt _ _ _ _ _ (parseAddress_hash _ _ ha1).2 hf1
    have hb2 : ∀ b ∈ dg2, b < 256 :=
      finalHashOf_lt _ _ _ _ _ (parseAddress_hash _ _ ha1).2 hf2
    have hdgne : dg1 ≠ dg2 := by
      intro heq
      subst heq
      rcases finalHashOf_inj _ _ _ _ _ _ _ _ dg1
          (parseAddress_hash _ _ ha1).1 (parseAddress_hash _ _ ha1).1
          hf1 hf2 with ⟨_, _, ⟨d0, hdd1, hdd2⟩, _⟩
      have e1 : d1 = d0 := by simpa using hd1.symm.trans hdd1
      have e2 : d2 = d0 := by simpa using hd2.symm.trans hdd2
      exact hdne (e1.trans e2.symm)
    rw [hr1, hr2]
    exact sig_ne_of_digest_ne dg1 dg2 params.privateKey hbytes hb1 hb2 hdgne
  · intro params addr2 nowMs r1 r2 a1 a2 hbytes h1 h2 ha1 ha2 hane
    rcases signData_ok _ _ _ h1 with ⟨b1, dg1, hb1p, hf1, hr1⟩
    rcases signData_ok _ _ _ h2 with ⟨b2, dg2, hb2p, hf2, hr2⟩
    dsimp only at hb2p hf2 hr2
    rw [ha1] at hb1p
    have e1 : a1 = b1 := by simpa using hb1p
    rw [ha2] at hb2p
    have e2 : a2 = b2 := by simpa using hb2p
    subst e1
    subst e2
    have hq1 : ∀ b ∈ dg1, b < 256 :=
      finalHashOf_lt _ _ _ _ _ (parseAddress_hash _ _ ha1).2 hf1
    have hq2 : ∀ b ∈ dg2, b < 256 :=
      finalHashOf_lt _ _ _ _ _ (parseAddress_hash _ _ ha2).2 hf2
    have hdgne : dg1 ≠ dg2 := by
      intro heq
      subst heq
      rcases finalHashOf_inj _ _ _ _ _ _ _ _ dg1
          (parseAddress_hash _ _ ha1).1 (parseAddress_hash _ _ ha2).1
          hf1 hf2 with ⟨haeq, _, _, _⟩
      exact hane haeq
    rw [hr1, hr2]
    exact sig_ne_of_digest_ne dg1 dg2 params.privateKey hbytes hq1 hq2 hdgne

/-- A second signing two captured seconds later. -/
def resultLaterW : SignDataResult :=
  (signData paramsW (nowW + 2000)).toOption.getD
    ⟨"", "", 0, "", SignDataPayload.text ""⟩

/-- Signing with the domain changed to a canonically different one. -/
def resultDomOtherW : SignDataResult :=
  (signData { paramsW with domain := "other.com" } nowW).toOption.getD
    ⟨"", "", 0, "", SignDataPayload.text ""⟩

/-- Signing with the address changed to a different account. -/
def resultAddrOtherW : SignDataResult :=
  (signData { paramsW with address := addrOther } nowW).toOption.getD
    ⟨"", "", 0, "", SignDataPayload.text ""⟩

/-- The parsed form of `addrOther`. -/
def parsedAddrOtherW : ParsedAddress := ⟨0, List.replicate 32 187⟩

/-- Witness for the amended C4 at concrete inputs: identical calls agree;
a timestamp two seconds later, a canonically different domain, and a
different parsed address each change the signature. -/
theorem claim4_witness :
    resultW = resultW ∧
      resultW.signature ≠ resultLaterW.signature ∧
      resultW.signature ≠ resultDomOtherW.signature ∧
      resultW.signature ≠ resultAddrOtherW.signature :=
  ⟨claim4_determinism_sensitivity.1 paramsW nowW resultW resultW
     (by decide) (by decide),
   claim4_determinism_sensitivity.2.1 paramsW nowW (nowW + 2000) resultW
     resultLaterW (by decide) (by decide) (by decide) (by decide),
   claim4_determinism_sensitivity.2.2.1 paramsW "other.com" nowW resultW
     resultDomOtherW domBytesW domBytesOther (by decide) (by decide)
     (by decide) (by decide) (by decide) (by decide),
   claim4_determinism_sensitivity.2.2.2 paramsW addrOther nowW resultW
     resultAddrOtherW parsedAddrW parsedAddrOtherW (by decide) (by decide)
     (by decide) (by decide) (by decide) (by decide)⟩

/-- Signing with the address respelled in uppercase hex (same account). -/
def resultAddrUpperW : SignDataResult :=
  (signData { paramsW with address := addrUpper } nowW).toOption.getD
    ⟨"", "", 0, "", SignDataPayload.text ""⟩

/-- Counterexample to **C4** as stated: changing only the address string —
holding payload, domain, key and captured timestamp fixed — does not
produce a different signature when the new string parses to the same
account (uppercase hex spelling of the same raw address). -/
theorem claim4_counterexample :
    paramsW.address ≠ addrUpper ∧
      signData paramsW nowW = .ok resultW ∧
      signData { paramsW with address := addrUpper } nowW =
        .ok resultAddrUpperW ∧
      resultW.signature = resultAddrUpperW.signature := by
  refine ⟨by decide, by decide, by decide, by decide⟩
